import Mathlib

/-!
Verification of the download-manager core of the asus-chrome-os-downloader
repository (`src/download_manager.py`), as a shallow embedding in Lean 4.

Modelling conventions:
* Python machine integers / byte counts are `ℕ`; the float `progress`
  percentage is `ℚ` (only the exactly-representable value `100` matters to
  the verified properties).
* The filesystem state a task touches (the final file at `full_path` and the
  partial file at `full_path ++ ".tmp"`) is a `TaskFS` record carried next to
  the task; tasks are assumed to have pairwise distinct paths, as the
  surrounding application guarantees.
* Concurrently mutated control flags (`stopped`, `paused`) are sampled by the
  worker at chunk boundaries; the sampled values are supplied by an explicit
  oracle (`ChunkEvent`), and the whole HTTP exchange of one attempt is an
  explicit oracle (`HttpOutcome`).
* Time-derived observables (`download_speed`, `eta`, the 0.5 s update-callback
  cadence, the 2 s back-off sleep) and the opaque `metadata` mapping are not
  modelled: no verified property mentions them.  The speed-throttle sleep of
  line 188 is modelled by recording the computed sleep durations.
* Ghost fields (`hasWorker`, `completionCalls`, `everFailed`) record,
  respectively, that a worker thread is live for the task, how often the
  completion callback has been invoked with the task, and whether some attempt
  of the task has ever failed.  They change exactly where the Python code
  spawns a thread, invokes the callback, or enters the `except` handler.
-/

namespace AsusDL

/-- The `DownloadStatus` enum (download_manager.py lines 11–17). -/
inductive DownloadStatus where
  | queued
  | downloading
  | paused
  | completed
  | error
  | stopped
  deriving DecidableEq, Repr

/-- The `DownloadTask` record (download_manager.py lines 20–47).  `thread` is
replaced by the ghost flag `hasWorker`; `download_speed`, `eta` and
`metadata` are omitted (see module comment). -/
structure DownloadTask where
  url : String
  destination : String
  filename : String
  status : DownloadStatus
  progress : ℚ
  error_message : String
  total_size : ℕ
  downloaded_size : ℕ
  paused : Bool
  stopped : Bool
  retry_count : ℕ
  hasWorker : Bool
  completionCalls : ℕ
  everFailed : Bool
  deriving DecidableEq, Repr

/-- The `DownloadTask.__init__` defaults (lines 23–39). -/
def newTask (url destination filename : String) : DownloadTask :=
  { url := url
    destination := destination
    filename := filename
    status := .queued
    progress := 0
    error_message := ""
    total_size := 0
    downloaded_size := 0
    paused := false
    stopped := false
    retry_count := 0
    hasWorker := false
    completionCalls := 0
    everFailed := false }

/-- The `full_path` property (lines 41–43): `os.path.join(destination, filename)`. -/
def DownloadTask.full_path (t : DownloadTask) : String :=
  t.destination ++ "/" ++ t.filename

/-- The filesystem state at the two paths a task touches: the size of the
final file at `full_path` (`none` = absent) and the size of the partial file
at `full_path ++ ".tmp"` (`none` = absent). -/
structure TaskFS where
  finalSize : Option ℕ
  temp : Option ℕ
  deriving DecidableEq, Repr

/-- The `DownloadTask.exists` query (lines 45–47): `os.path.exists(self.full_path)`. -/
def fileExists (fs : TaskFS) : Bool :=
  fs.finalSize.isSome

/-- The constructor arguments of `HttpxDownloadManager.__init__`
(lines 53–69); the completion callback is modelled by whether one is
registered. -/
structure ManagerCfg where
  max_concurrent_downloads : ℕ
  max_download_speed : Option ℕ
  hasCompletionCallback : Bool
  max_retries : ℕ
  deriving DecidableEq, Repr

/-- A task together with the filesystem state of its two paths. -/
structure TaskEntry where
  task : DownloadTask
  fs : TaskFS
  deriving DecidableEq, Repr

instance : Inhabited DownloadTask := ⟨newTask "" "" ""⟩

instance : Inhabited TaskFS := ⟨⟨none, none⟩⟩

instance : Inhabited TaskEntry := ⟨⟨default, default⟩⟩

/-- The mutable state of `HttpxDownloadManager` (lines 71–74). -/
structure Manager where
  tasks : List TaskEntry
  active_downloads : ℕ
  deriving DecidableEq, Repr

/-- The speed-throttle computation of lines 186–188:
`if self.max_download_speed: time.sleep(len(chunk) / (self.max_download_speed * 1024))`.
Python truthiness makes both `None` and `0` skip the branch; the returned
value is the sleep duration when the branch is taken. -/
def throttleDelay (max_download_speed : Option ℕ) (chunkLen : ℕ) : Option ℚ :=
  match max_download_speed with
  | none => none
  | some s => if s = 0 then none else some ((chunkLen : ℚ) / ((s : ℚ) * 1024))

/-- One iteration of the chunk loop (lines 152–188), with the concurrently
mutated flags sampled at their read points supplied as an oracle. -/
structure ChunkEvent where
  /-- value of `task.stopped` at the line-153 check -/
  stoppedAtCheck : Bool
  /-- value of `task.paused` at the line-156 check -/
  pausedAtCheck : Bool
  /-- value of `task.stopped` when the line-158 wait loop exits -/
  stoppedAfterWait : Bool
  /-- value of `len(chunk)` -/
  size : ℕ
  deriving DecidableEq, Repr

/-- Intermediate state of one attempt: the task, its filesystem, the
accumulated throttle sleeps, and `some msg` once `Exception(msg)` has been
raised. -/
structure LoopState where
  task : DownloadTask
  fs : TaskFS
  sleeps : List ℚ
  raised : Option String
  deriving DecidableEq, Repr

/-- lines 164–188: write the chunk to the open temp file, update counters and
progress, compute the throttle sleep. -/
def writeChunk (cfg : ManagerCfg) (t : DownloadTask) (fs : TaskFS)
    (ev : ChunkEvent) : LoopState :=
  let fs1 : TaskFS := { fs with temp := some (fs.temp.getD 0 + ev.size) }
  let t1 := { t with downloaded_size := t.downloaded_size + ev.size }
  let t2 :=
    if 0 < t1.total_size then
      { t1 with progress := ((t1.downloaded_size : ℚ) / (t1.total_size : ℚ)) * 100 }
    else t1
  { task := t2, fs := fs1,
    sleeps := (throttleDelay cfg.max_download_speed ev.size).toList,
    raised := none }

/-- Process one chunk (lines 152–188). -/
def processChunk (cfg : ManagerCfg) (t : DownloadTask) (fs : TaskFS)
    (ev : ChunkEvent) : LoopState :=
  if ev.stoppedAtCheck then
    { task := t, fs := fs, sleeps := [], raised := some "Download stopped by user" }
  else if ev.pausedAtCheck then
    -- line 157: status := PAUSED, then wait; flags sampled at loop exit
    let tp := { t with status := DownloadStatus.paused }
    if ev.stoppedAfterWait then
      { task := tp, fs := fs, sleeps := [], raised := some "Download stopped" }
    else
      -- line 162: resume
      writeChunk cfg { tp with status := DownloadStatus.downloading } fs ev
  else
    writeChunk cfg t fs ev

/-- The chunk loop of lines 152–188 over the oracle's chunk events, stopping
at the first raised exception. -/
def runChunks (cfg : ManagerCfg) :
    List ChunkEvent → DownloadTask → TaskFS → LoopState
  | [], t, fs => { task := t, fs := fs, sleeps := [], raised := none }
  | ev :: evs, t, fs =>
    let r := processChunk cfg t fs ev
    match r.raised with
    | some e => { r with raised := some e }
    | none =>
      let rest := runChunks cfg evs r.task r.fs
      { rest with sleeps := r.sleeps ++ rest.sleeps }

/-- Oracle for the whole HTTP exchange of one attempt (lines 127–152):
either `httpx.stream` itself raises, or it yields a response with a status
code, an optional `content-length` header, the sampled chunk events, and —
after the listed chunks were delivered — an optional error raised by the
body iterator (`none` = the stream ended normally). -/
inductive HttpOutcome where
  | connectError (msg : String)
  | response (statusCode : ℕ) (contentLength : Option ℕ)
      (events : List ChunkEvent) (streamError : Option String)
  deriving DecidableEq, Repr

/-- The result of one attempt (`_download_file` without its `finally`
block), together with ghost observations of the attempt's interaction with
the outside world. -/
structure TryResult where
  task : DownloadTask
  fs : TaskFS
  /-- sleeps performed by the line-188 throttle -/
  sleeps : List ℚ
  /-- the exception raised inside the `try` block, if any (always caught) -/
  raised : Option String
  /-- the `Range` header sent with the GET, if any (line 124) -/
  sentRange : Option String
  /-- the mode the temp file was opened with, `none` if never opened (line 150) -/
  openMode : Option String
  /-- the computed `start_byte` (lines 117–119) -/
  start_byte : ℕ
  deriving DecidableEq, Repr

/-- Lines 117–120: `start_byte` is the size of the temp file when it exists
and 0 otherwise; `downloaded_size` is assigned (to `start_byte`) only in the
exists-branch. -/
def resumeProlog (t0 : DownloadTask) (fs0 : TaskFS) : ℕ × DownloadTask :=
  match fs0.temp with
  | some n => (n, { t0 with downloaded_size := n })
  | none => (0, t0)

/-- Lines 139–143: compute `total_size` from the `content-length` header —
`start_byte + content_length` when the header is present, else 0 on a fresh
200 response, else unchanged. -/
def totalSizePhase (sc : ℕ) (cl : Option ℕ) (start_byte : ℕ)
    (t : DownloadTask) : DownloadTask :=
  match cl with
  | some n => { t with total_size := start_byte + n }
  | none => if sc = 200 then { t with total_size := 0 } else t

/-- Lines 150–151: `open(temp_file, mode)` — append keeps the temp file,
truncate-write creates/empties it. -/
def openTemp (start_byte : ℕ) (fs : TaskFS) : TaskFS :=
  if 0 < start_byte then fs else { fs with temp := some 0 }

/-- Lines 150–200 for an accepted (200/206) response: open the temp file,
stream the chunks, and—when neither the chunk loop nor the body iterator
raised—finalise: remove any pre-existing final file, rename the temp file,
mark COMPLETED with progress 100, and invoke the completion callback. -/
def streamAndFinish (cfg : ManagerCfg) (range : Option String)
    (start_byte : ℕ) (t2 : DownloadTask) (fs0 : TaskFS)
    (evs : List ChunkEvent) (serr : Option String) : TryResult :=
  -- lines 150–151: open('ab') appends, open('wb') truncates/creates
  let mode := if 0 < start_byte then "ab" else "wb"
  let fs1 := openTemp start_byte fs0
  let r := runChunks cfg evs t2 fs1
  match r.raised with
  | some e =>
    { task := r.task, fs := r.fs, sleeps := r.sleeps, raised := some e,
      sentRange := range, openMode := some mode, start_byte := start_byte }
  | none =>
    match serr with
    | some e =>
      { task := r.task, fs := r.fs, sleeps := r.sleeps, raised := some e,
        sentRange := range, openMode := some mode, start_byte := start_byte }
    | none =>
      -- lines 190–200: remove pre-existing final file, rename temp,
      -- COMPLETED, progress 100, completion callback
      let fs2 : TaskFS := { finalSize := r.fs.temp, temp := none }
      let calls := r.task.completionCalls +
        (if cfg.hasCompletionCallback then 1 else 0)
      let t3 := { r.task with status := DownloadStatus.completed }
      let t4 := { t3 with progress := (100 : ℚ), completionCalls := calls }
      { task := t4,
        fs := fs2, sleeps := r.sleeps, raised := none,
        sentRange := range, openMode := some mode, start_byte := start_byte }

/-- The `try` block of `_download_file` (lines 115–200): resume detection,
request, status check, total-size computation, then `streamAndFinish` on an
accepted response. -/
def tryPhase (cfg : ManagerCfg) (t0 : DownloadTask) (fs0 : TaskFS)
    (h : HttpOutcome) : TryResult :=
  let start_byte := (resumeProlog t0 fs0).1
  let t1 := (resumeProlog t0 fs0).2
  -- lines 122–124
  let range : Option String :=
    if 0 < start_byte then some ("bytes=" ++ toString start_byte ++ "-") else none
  match h with
  | .connectError msg =>
    { task := t1, fs := fs0, sleeps := [], raised := some msg,
      sentRange := range, openMode := none, start_byte := start_byte }
  | .response sc cl evs serr =>
    -- line 135
    if sc = 200 ∨ sc = 206 then
      streamAndFinish cfg range start_byte (totalSizePhase sc cl start_byte t1)
        fs0 evs serr
    else
      { task := t1, fs := fs0, sleeps := [],
        raised := some ("HTTP " ++ toString sc),
        sentRange := range, openMode := none, start_byte := start_byte }

/-- The body of `_download_file` (lines 111–221) without the `finally` block: the `try`
body followed by the `except Exception` handler (lines 202–221), which
records the message and either re-queues the task (retry budget remains;
temp file kept) or marks it ERROR and deletes the temp file. -/
def download_file (cfg : ManagerCfg) (t0 : DownloadTask) (fs0 : TaskFS)
    (h : HttpOutcome) : TryResult :=
  let r := tryPhase cfg t0 fs0 h
  match r.raised with
  | none => r
  | some e =>
    let t1 := { r.task with error_message := e, everFailed := true }
    if t1.retry_count < cfg.max_retries then
      let t2 := { t1 with retry_count := t1.retry_count + 1 }
      { r with task := { t2 with status := DownloadStatus.queued } }
    else
      let fs1 := { r.fs with temp := (none : Option ℕ) }
      { r with task := { t1 with status := DownloadStatus.error }, fs := fs1 }

/-- Lines 101–108: admit one task — mark it DOWNLOADING and spawn its worker
thread (ghost flag `hasWorker`). -/
def admitEntry (e : TaskEntry) : TaskEntry :=
  let t1 := { e.task with status := DownloadStatus.downloading }
  { e with task := { t1 with hasWorker := true } }

/-- The scan of `_start_next_download`'s `for` loop (lines 99–109): admit the
first QUEUED task, leaving the rest unchanged; `none` when no task is
QUEUED. -/
def startLoop : List TaskEntry → Option (List TaskEntry)
  | [] => none
  | e :: es =>
    if e.task.status = DownloadStatus.queued then
      some (admitEntry e :: es)
    else
      (startLoop es).map (e :: ·)

/-- The method `_start_next_download` (lines 92–109): under the lock, do nothing when
the active count is at the ceiling; otherwise admit the first QUEUED task
(if any), incrementing the active count. -/
def start_next_download (cfg : ManagerCfg) (m : Manager) : Manager :=
  if cfg.max_concurrent_downloads ≤ m.active_downloads then m
  else
    match startLoop m.tasks with
    | none => m
    | some ts => { tasks := ts, active_downloads := m.active_downloads + 1 }

/-- The method `add_download` (lines 76–90).  Returns the new manager state, the Python
return value, and a ghost flag recording whether `os.makedirs` was called.
The exists-branch never reaches `_start_next_download`. -/
def add_download (cfg : ManagerCfg) (m : Manager) (t : DownloadTask)
    (fs : TaskFS) : Manager × Bool × Bool :=
  if fileExists fs then
    ({ m with tasks := m.tasks ++
        [{ task := { t with status := DownloadStatus.completed, progress := 100 },
           fs := fs }] },
     false, false)
  else
    (start_next_download cfg
      { m with tasks := m.tasks ++ [{ task := t, fs := fs }] },
     true, true)

/-- The method `pause_download` (lines 233–236): set the `paused` flag only when the
task is DOWNLOADING. -/
def pause_download (t : DownloadTask) : DownloadTask :=
  if t.status = DownloadStatus.downloading then { t with paused := true } else t

/-- The method `resume_download` (lines 238–241): clear the `paused` flag only when the
task is PAUSED. -/
def resume_download (t : DownloadTask) : DownloadTask :=
  if t.status = DownloadStatus.paused then { t with paused := false } else t

/-- The method `cleanup_completed` (lines 256–259). -/
def cleanup_completed (m : Manager) : Manager :=
  { m with tasks := m.tasks.filter (fun e => ¬ e.task.status = DownloadStatus.completed) }

/-- The state reached when the worker of entry `e` terminates: the attempt
is applied, the thread ends (`hasWorker := false`).  The `finally` block's
slot release and re-admission are applied by the step relation. -/
def finishEntry (cfg : ManagerCfg) (e : TaskEntry) (h : HttpOutcome) : TaskEntry :=
  let r := download_file cfg e.task e.fs h
  { task := { r.task with hasWorker := false }, fs := r.fs }

/-- The query `get_active_downloads_count` (lines 251–254). -/
def countDownloading (l : List TaskEntry) : ℕ :=
  l.countP (fun e => decide (e.task.status = DownloadStatus.downloading))

/-- Number of entries with a live worker thread. -/
def countWorkers (l : List TaskEntry) : ℕ :=
  l.countP (fun e => e.task.hasWorker)

/-- The scheduler's step relation: the observable transitions of one
`HttpxDownloadManager`.  Submissions carry freshly constructed tasks (as
every caller in the repository constructs them) together with the prior
filesystem state of the task's paths; a worker's whole attempt is applied
atomically when it terminates, followed by the `finally` block (slot
release, admission of the next queued task). -/
inductive Step (cfg : ManagerCfg) : Manager → Manager → Prop
  | submit (m : Manager) (u d f : String) (fs : TaskFS) :
      Step cfg m (add_download cfg m (newTask u d f) fs).1
  | workerFinish (pre post : List TaskEntry) (e : TaskEntry) (a : ℕ)
      (h : HttpOutcome) (hw : e.task.hasWorker = true) :
      Step cfg ⟨pre ++ e :: post, a⟩
        (start_next_download cfg ⟨pre ++ finishEntry cfg e h :: post, a - 1⟩)
  | pauseReq (pre post : List TaskEntry) (e : TaskEntry) (a : ℕ) :
      Step cfg ⟨pre ++ e :: post, a⟩
        ⟨pre ++ { e with task := pause_download e.task } :: post, a⟩
  | resumeReq (pre post : List TaskEntry) (e : TaskEntry) (a : ℕ) :
      Step cfg ⟨pre ++ e :: post, a⟩
        ⟨pre ++ { e with task := resume_download e.task } :: post, a⟩
  | cleanup (m : Manager) :
      Step cfg m (cleanup_completed m)

/-- States reachable from a freshly constructed manager (empty task list,
zero active workers). -/
inductive Reachable (cfg : ManagerCfg) : Manager → Prop
  | init : Reachable cfg ⟨[], 0⟩
  | step {m m' : Manager} : Reachable cfg m → Step cfg m m' → Reachable cfg m'

/-- Consecutive attempts of one worker-per-admission sequence on a single
task, each attempt driven by its own HTTP oracle. -/
def iterAttempts (cfg : ManagerCfg) : List HttpOutcome → TaskEntry → TaskEntry
  | [], e => e
  | h :: hs, e =>
    let r := download_file cfg e.task e.fs h
    iterAttempts cfg hs { task := r.task, fs := r.fs }

/-! Concrete fixtures used by witnesses and counterexamples. -/

/-- A manager configuration: ceiling 2, no speed cap, a completion callback
registered, 3 retries. -/
def cfg3 : ManagerCfg :=
  { max_concurrent_downloads := 2, max_download_speed := none,
    hasCompletionCallback := true, max_retries := 3 }

/-- A manager configuration with a retry budget of 1. -/
def cfg1 : ManagerCfg :=
  { max_concurrent_downloads := 1, max_download_speed := none,
    hasCompletionCallback := true, max_retries := 1 }

/-- A freshly constructed task. -/
def tA : DownloadTask := newTask "http://example/f.bin" "/d" "f.bin"

/-- Filesystem state: neither the final file nor the temp file exists. -/
def fsNone : TaskFS := { finalSize := none, temp := none }

/-- Filesystem state: the final file already exists (5 bytes). -/
def fsFinal : TaskFS := { finalSize := some 5, temp := none }

/-- A chunk event sampled with both flags clear, delivering 10 bytes. -/
def evPlain : ChunkEvent :=
  { stoppedAtCheck := false, pausedAtCheck := false,
    stoppedAfterWait := false, size := 10 }

/-- A chunk event that observes the `stopped` flag set at the line-153
check. -/
def evStop : ChunkEvent :=
  { stoppedAtCheck := true, pausedAtCheck := false,
    stoppedAfterWait := false, size := 0 }

/-- An HTTP exchange whose first chunk observes the `stopped` flag. -/
def stopOutcome : HttpOutcome := .response 200 (some 100) [evStop] none

/-- A fully successful HTTP exchange delivering one 10-byte chunk. -/
def successOutcome : HttpOutcome := .response 200 (some 10) [evPlain] none

/-- The manager state after submitting one fresh task whose final file
already exists. -/
def c7state : Manager := (add_download cfg3 ⟨[], 0⟩ tA fsFinal).1

/-- The task entry admitted to DOWNLOADING right after the first submission
to an empty manager. -/
def eAdmitted : TaskEntry :=
  { task := { tA with status := DownloadStatus.downloading, hasWorker := true },
    fs := fsNone }

/-- The manager state after the admitted worker of `eAdmitted` terminates
with a connection failure (retry budget 1): the task is re-queued and at
once re-admitted. -/
def c3state : Manager :=
  start_next_download cfg1
    ⟨[finishEntry cfg1 eAdmitted (.connectError "boom")], 0⟩

/-- Position `i` holds the first QUEUED task of the list: `i` is in range,
the task there is QUEUED, and no earlier task is QUEUED. -/
def FirstQueuedAt (l : List TaskEntry) (i : ℕ) : Prop :=
  i < l.length ∧
  (l.getD i default).task.status = DownloadStatus.queued ∧
  ∀ j, j < i → ¬ (l.getD j default).task.status = DownloadStatus.queued

instance (l : List TaskEntry) (i : ℕ) : Decidable (FirstQueuedAt l i) := by
  unfold FirstQueuedAt
  infer_instance

/-- Total number of bytes delivered by a list of chunk events. -/
def sumSizes (evs : List ChunkEvent) : ℕ :=
  (evs.map (fun ev => ev.size)).sum

/-- HTTP oracles that make an attempt fail for a reason other than an
observed stop: the connection itself fails, or the status code is neither
200 nor 206, or the body iterator raises mid-stream while no chunk event
observes the `stopped` flag. -/
inductive NonStopFailure : HttpOutcome → Prop
  | connect (msg : String) : NonStopFailure (.connectError msg)
  | badStatus (sc : ℕ) (cl : Option ℕ) (evs : List ChunkEvent)
      (serr : Option String) :
      ¬ sc = 200 → ¬ sc = 206 → NonStopFailure (.response sc cl evs serr)
  | streamFail (sc : ℕ) (cl : Option ℕ) (evs : List ChunkEvent) (msg : String) :
      (∀ ev ∈ evs, ev.stoppedAtCheck = false ∧
        (ev.pausedAtCheck = true → ev.stoppedAfterWait = false)) →
      NonStopFailure (.response sc cl evs (some msg))

instance : Inhabited HttpOutcome := ⟨.connectError ""⟩

/-- Per-entry part of the scheduler's inductive invariant. -/
def entryOK (cfg : ManagerCfg) (e : TaskEntry) : Prop :=
  (e.task.hasWorker = true ↔ e.task.status = DownloadStatus.downloading) ∧
  e.task.retry_count ≤ cfg.max_retries ∧
  e.task.completionCalls ≤ 1 ∧
  (1 ≤ e.task.completionCalls → e.task.status = DownloadStatus.completed) ∧
  (e.task.everFailed = false → e.task.error_message = "")

/-- The scheduler's inductive invariant: the active-worker count agrees with
the number of live workers, stays within the ceiling, and every entry
satisfies `entryOK`. -/
def Inv (cfg : ManagerCfg) (m : Manager) : Prop :=
  m.active_downloads = countWorkers m.tasks ∧
  m.active_downloads ≤ cfg.max_concurrent_downloads ∧
  ∀ e ∈ m.tasks, entryOK cfg e

/-! Helper lemmas -/

theorem processChunk_sleeps_nil (cfg : ManagerCfg) (t : DownloadTask)
    (fs : TaskFS) (ev : ChunkEvent)
    (hc : cfg.max_download_speed = none ∨ cfg.max_download_speed = some 0) :
    (processChunk cfg t fs ev).sleeps = [] := by
  have ht : throttleDelay cfg.max_download_speed ev.size = none := by
    rcases hc with hc | hc <;> simp [hc, throttleDelay]
  simp only [processChunk, writeChunk, ht]
  split_ifs <;> rfl

theorem runChunks_sleeps_nil (cfg : ManagerCfg)
    (hc : cfg.max_download_speed = none ∨ cfg.max_download_speed = some 0) :
    ∀ (evs : List ChunkEvent) (t : DownloadTask) (fs : TaskFS),
      (runChunks cfg evs t fs).sleeps = [] := by
  intro evs
  induction evs with
  | nil => intro t fs; rfl
  | cons ev evs ih =>
    intro t fs
    simp only [runChunks]
    cases hr : (processChunk cfg t fs ev).raised with
    | none => simp [hr, processChunk_sleeps_nil cfg t fs ev hc, ih]
    | some e => simp [hr, processChunk_sleeps_nil cfg t fs ev hc]

theorem startLoop_none (l : List TaskEntry)
    (h : ∀ e ∈ l, ¬ e.task.status = DownloadStatus.queued) :
    startLoop l = none := by
  induction l with
  | nil => rfl
  | cons e es ih =>
    have he := h e (by simp)
    simp [startLoop, he, ih (fun x hx => h x (by simp [hx]))]

theorem startLoop_firstQueued (l : List TaskEntry) (i : ℕ)
    (h : FirstQueuedAt l i) :
    startLoop l = some (l.set i (admitEntry (l.getD i default))) := by
  induction l generalizing i with
  | nil => exact absurd h.1 (by simp)
  | cons e es ih =>
    by_cases hq : e.task.status = DownloadStatus.queued
    · have hi : i = 0 := by
        by_contra hne
        exact h.2.2 0 (Nat.pos_of_ne_zero hne) (by simpa using hq)
      subst hi
      simp [startLoop, hq]
    · obtain ⟨hlen, hcur, hmin⟩ := h
      cases i with
      | zero => exact absurd (by simpa using hcur) hq
      | succ j =>
        have hfq : FirstQueuedAt es j := by
          refine ⟨by simpa using hlen, by simpa using hcur, ?_⟩
          intro k hk
          have := hmin (k + 1) (by omega)
          simpa using this
        simp [startLoop, hq, ih j hfq]

theorem processChunk_fields (cfg : ManagerCfg) (t : DownloadTask) (fs : TaskFS)
    (ev : ChunkEvent) :
    (processChunk cfg t fs ev).task.retry_count = t.retry_count ∧
    (processChunk cfg t fs ev).task.hasWorker = t.hasWorker ∧
    (processChunk cfg t fs ev).task.completionCalls = t.completionCalls ∧
    (processChunk cfg t fs ev).task.everFailed = t.everFailed ∧
    (processChunk cfg t fs ev).task.error_message = t.error_message ∧
    (processChunk cfg t fs ev).fs.finalSize = fs.finalSize := by
  simp only [processChunk, writeChunk]
  split_ifs <;> simp

theorem runChunks_fields (cfg : ManagerCfg) (evs : List ChunkEvent) :
    ∀ (t : DownloadTask) (fs : TaskFS),
    (runChunks cfg evs t fs).task.retry_count = t.retry_count ∧
    (runChunks cfg evs t fs).task.hasWorker = t.hasWorker ∧
    (runChunks cfg evs t fs).task.completionCalls = t.completionCalls ∧
    (runChunks cfg evs t fs).task.everFailed = t.everFailed ∧
    (runChunks cfg evs t fs).task.error_message = t.error_message ∧
    (runChunks cfg evs t fs).fs.finalSize = fs.finalSize := by
  induction evs with
  | nil => intro t fs; exact ⟨rfl, rfl, rfl, rfl, rfl, rfl⟩
  | cons ev evs ih =>
    intro t fs
    obtain ⟨h1, h2, h3, h4, h5, h6⟩ := processChunk_fields cfg t fs ev
    simp only [runChunks]
    cases hr : (processChunk cfg t fs ev).raised with
    | some e => exact ⟨h1, h2, h3, h4, h5, h6⟩
    | none =>
      obtain ⟨i1, i2, i3, i4, i5, i6⟩ :=
        ih (processChunk cfg t fs ev).task (processChunk cfg t fs ev).fs
      exact ⟨i1.trans h1, i2.trans h2, i3.trans h3, i4.trans h4,
        i5.trans h5, i6.trans h6⟩

theorem resumeProlog_fields (t : DownloadTask) (fs : TaskFS) :
    (resumeProlog t fs).2.retry_count = t.retry_count ∧
    (resumeProlog t fs).2.hasWorker = t.hasWorker ∧
    (resumeProlog t fs).2.completionCalls = t.completionCalls ∧
    (resumeProlog t fs).2.everFailed = t.everFailed ∧
    (resumeProlog t fs).2.error_message = t.error_message ∧
    (resumeProlog t fs).2.status = t.status := by
  cases hft : fs.temp <;> simp [resumeProlog, hft]

theorem totalSizePhase_fields (sc : ℕ) (cl : Option ℕ) (sb : ℕ)
    (t : DownloadTask) :
    (totalSizePhase sc cl sb t).retry_count = t.retry_count ∧
    (totalSizePhase sc cl sb t).hasWorker = t.hasWorker ∧
    (totalSizePhase sc cl sb t).completionCalls = t.completionCalls ∧
    (totalSizePhase sc cl sb t).everFailed = t.everFailed ∧
    (totalSizePhase sc cl sb t).error_message = t.error_message := by
  cases cl with
  | none => simp only [totalSizePhase]; split_ifs <;> simp
  | some n => simp [totalSizePhase]

theorem streamAndFinish_fields (cfg : ManagerCfg) (range : Option String)
    (sb : ℕ) (t2 : DownloadTask) (fs0 : TaskFS) (evs : List ChunkEvent)
    (serr : Option String) :
    (streamAndFinish cfg range sb t2 fs0 evs serr).task.retry_count
      = t2.retry_count ∧
    (streamAndFinish cfg range sb t2 fs0 evs serr).task.hasWorker
      = t2.hasWorker ∧
    (streamAndFinish cfg range sb t2 fs0 evs serr).task.everFailed
      = t2.everFailed ∧
    (streamAndFinish cfg range sb t2 fs0 evs serr).task.error_message
      = t2.error_message ∧
    ((streamAndFinish cfg range sb t2 fs0 evs serr).raised = none →
      (streamAndFinish cfg range sb t2 fs0 evs serr).task.status
        = DownloadStatus.completed ∧
      (streamAndFinish cfg range sb t2 fs0 evs serr).task.progress = 100 ∧
      (streamAndFinish cfg range sb t2 fs0 evs serr).task.completionCalls
        = t2.completionCalls + (if cfg.hasCompletionCallback then 1 else 0) ∧
      (streamAndFinish cfg range sb t2 fs0 evs serr).fs.temp = none) ∧
    (∀ e, (streamAndFinish cfg range sb t2 fs0 evs serr).raised = some e →
      (streamAndFinish cfg range sb t2 fs0 evs serr).task.completionCalls
        = t2.completionCalls) := by
  obtain ⟨r1, r2, r3, r4, r5, r6⟩ :=
    runChunks_fields cfg evs t2 (openTemp sb fs0)
  simp only [streamAndFinish]
  cases hr : (runChunks cfg evs t2 (openTemp sb fs0)).raised with
  | some e =>
    refine ⟨r1, r2, r4, r5, ?_, ?_⟩
    · intro hn
      simp at hn
    · intro e' _
      exact r3
  | none =>
    cases serr with
    | some e =>
      refine ⟨r1, r2, r4, r5, ?_, ?_⟩
      · intro hn
        simp at hn
      · intro e' _
        exact r3
    | none =>
      refine ⟨r1, r2, r4, r5, ?_, ?_⟩
      · intro hn
        refine ⟨rfl, rfl, ?_, rfl⟩
        show (runChunks cfg evs t2 (openTemp sb fs0)).task.completionCalls
            + (if cfg.hasCompletionCallback then 1 else 0)
          = t2.completionCalls + (if cfg.hasCompletionCallback then 1 else 0)
        rw [r3]
      · intro e' he'
        simp at he'

theorem tryPhase_fields (cfg : ManagerCfg) (t : DownloadTask) (fs : TaskFS)
    (h : HttpOutcome) :
    (tryPhase cfg t fs h).task.retry_count = t.retry_count ∧
    (tryPhase cfg t fs h).task.hasWorker = t.hasWorker ∧
    (tryPhase cfg t fs h).task.everFailed = t.everFailed ∧
    (tryPhase cfg t fs h).task.error_message = t.error_message ∧
    ((tryPhase cfg t fs h).raised = none →
      (tryPhase cfg t fs h).task.status = DownloadStatus.completed ∧
      (tryPhase cfg t fs h).task.progress = 100 ∧
      (tryPhase cfg t fs h).task.completionCalls =
        t.completionCalls + (if cfg.hasCompletionCallback then 1 else 0) ∧
      (tryPhase cfg t fs h).fs.temp = none) ∧
    (∀ e, (tryPhase cfg t fs h).raised = some e →
      (tryPhase cfg t fs h).task.completionCalls = t.completionCalls) := by
  obtain ⟨p1, p2, p3, p4, p5, p6⟩ := resumeProlog_fields t fs
  cases h with
  | connectError msg =>
    exact ⟨p1, p2, p4, p5, (by intro hn; cases hn), fun e' _ => p3⟩
  | response sc cl evs serr =>
    by_cases hsc : sc = 200 ∨ sc = 206
    · obtain ⟨q1, q2, q3, q4, q5⟩ :=
        totalSizePhase_fields sc cl (resumeProlog t fs).1 (resumeProlog t fs).2
      obtain ⟨s1, s2, s3, s4, s5, s6⟩ :=
        streamAndFinish_fields cfg
          (if 0 < (resumeProlog t fs).1
            then some ("bytes=" ++ toString (resumeProlog t fs).1 ++ "-") else none)
          (resumeProlog t fs).1
          (totalSizePhase sc cl (resumeProlog t fs).1 (resumeProlog t fs).2)
          fs evs serr
      simp only [tryPhase, if_pos hsc]
      refine ⟨s1.trans (q1.trans p1), s2.trans (q2.trans p2),
        s3.trans (q4.trans p4), s4.trans (q5.trans p5), ?_, ?_⟩
      · intro hn
        obtain ⟨a1, a2, a3, a4⟩ := s5 hn
        exact ⟨a1, a2, a3.trans (by rw [q3, p3]), a4⟩
      · intro e' he'
        exact (s6 e' he').trans (q3.trans p3)
    · simp only [tryPhase, if_neg hsc]
      exact ⟨p1, p2, p4, p5, (by intro hn; cases hn), fun e' _ => p3⟩

theorem download_file_raised_none (cfg : ManagerCfg) (t : DownloadTask)
    (fs : TaskFS) (h : HttpOutcome)
    (hn : (tryPhase cfg t fs h).raised = none) :
    download_file cfg t fs h = tryPhase cfg t fs h := by
  simp [download_file, hn]

theorem download_file_raised_some (cfg : ManagerCfg) (t : DownloadTask)
    (fs : TaskFS) (h : HttpOutcome) (e : String)
    (he : (tryPhase cfg t fs h).raised = some e) :
    (download_file cfg t fs h).task.error_message = e ∧
    (download_file cfg t fs h).task.everFailed = true ∧
    (download_file cfg t fs h).task.hasWorker = t.hasWorker ∧
    (download_file cfg t fs h).task.completionCalls = t.completionCalls ∧
    (t.retry_count < cfg.max_retries →
      (download_file cfg t fs h).task.status = DownloadStatus.queued ∧
      (download_file cfg t fs h).task.retry_count = t.retry_count + 1 ∧
      (download_file cfg t fs h).fs = (tryPhase cfg t fs h).fs) ∧
    (¬ t.retry_count < cfg.max_retries →
      (download_file cfg t fs h).task.status = DownloadStatus.error ∧
      (download_file cfg t fs h).task.retry_count = t.retry_count ∧
      (download_file cfg t fs h).fs.temp = none ∧
      (download_file cfg t fs h).fs.finalSize = (tryPhase cfg t fs h).fs.finalSize) := by
  obtain ⟨p1, p2, p3, p4, p5, p6⟩ := tryPhase_fields cfg t fs h
  simp only [download_file, he]
  split_ifs with hb
  · simp only at hb
    rw [p1] at hb
    refine ⟨rfl, rfl, p2, p6 e he, fun _ => ⟨rfl, ?_, rfl⟩, fun hnb => absurd hb hnb⟩
    show (tryPhase cfg t fs h).task.retry_count + 1 = t.retry_count + 1
    rw [p1]
  · simp only at hb
    rw [p1] at hb
    exact ⟨rfl, rfl, p2, p6 e he, fun hb' => absurd hb' hb,
      fun _ => ⟨rfl, p1, rfl, rfl⟩⟩

theorem download_file_fields (cfg : ManagerCfg) (t : DownloadTask)
    (fs : TaskFS) (h : HttpOutcome) :
    (download_file cfg t fs h).task.hasWorker = t.hasWorker ∧
    ((download_file cfg t fs h).task.status = DownloadStatus.completed ∨
      (download_file cfg t fs h).task.status = DownloadStatus.queued ∨
      (download_file cfg t fs h).task.status = DownloadStatus.error) ∧
    ((download_file cfg t fs h).task.retry_count = t.retry_count ∨
      (t.retry_count < cfg.max_retries ∧
        (download_file cfg t fs h).task.retry_count = t.retry_count + 1)) ∧
    ((download_file cfg t fs h).task.completionCalls = t.completionCalls ∨
      ((download_file cfg t fs h).task.completionCalls = t.completionCalls + 1 ∧
        (download_file cfg t fs h).task.status = DownloadStatus.completed)) ∧
    (((download_file cfg t fs h).task.everFailed = t.everFailed ∧
        (download_file cfg t fs h).task.error_message = t.error_message) ∨
      (download_file cfg t fs h).task.everFailed = true) ∧
    ((download_file cfg t fs h).task.status = DownloadStatus.queued →
      t.retry_count < cfg.max_retries) := by
  cases hr : (tryPhase cfg t fs h).raised with
  | none =>
    obtain ⟨p1, p2, p3, p4, p5, p6⟩ := tryPhase_fields cfg t fs h
    obtain ⟨a1, a2, a3, a4⟩ := p5 hr
    rw [download_file_raised_none cfg t fs h hr]
    refine ⟨p2, Or.inl a1, Or.inl p1, ?_, Or.inl ⟨p3, p4⟩, ?_⟩
    · by_cases hcb : cfg.hasCompletionCallback
      · right
        constructor
        · rw [a3, if_pos hcb]
        · exact a1
      · left
        rw [a3, if_neg hcb, Nat.add_zero]
    · intro hq
      rw [a1] at hq
      cases hq
  | some e =>
    obtain ⟨b1, b2, b3, b4, b5, b6⟩ := download_file_raised_some cfg t fs h e hr
    by_cases hb : t.retry_count < cfg.max_retries
    · obtain ⟨c1, c2, c3⟩ := b5 hb
      exact ⟨b3, Or.inr (Or.inl c1), Or.inr ⟨hb, c2⟩, Or.inl b4,
        Or.inr b2, fun _ => hb⟩
    · obtain ⟨c1, c2, c3, c4⟩ := b6 hb
      refine ⟨b3, Or.inr (Or.inr c1), Or.inl c2, Or.inl b4, Or.inr b2, ?_⟩
      intro hq
      rw [c1] at hq
      cases hq

theorem streamAndFinish_ghosts (cfg : ManagerCfg) (range : Option String)
    (sb : ℕ) (t2 : DownloadTask) (fs0 : TaskFS) (evs : List ChunkEvent)
    (serr : Option String) :
    (streamAndFinish cfg range sb t2 fs0 evs serr).start_byte = sb ∧
    (streamAndFinish cfg range sb t2 fs0 evs serr).sentRange = range ∧
    (streamAndFinish cfg range sb t2 fs0 evs serr).openMode
      = some (if 0 < sb then "ab" else "wb") := by
  simp only [streamAndFinish]
  cases hr : (runChunks cfg evs t2 (openTemp sb fs0)).raised with
  | some e => exact ⟨rfl, rfl, rfl⟩
  | none =>
    cases serr with
    | some e => exact ⟨rfl, rfl, rfl⟩
    | none => exact ⟨rfl, rfl, rfl⟩

theorem tryPhase_ghosts (cfg : ManagerCfg) (t : DownloadTask) (fs : TaskFS)
    (h : HttpOutcome) :
    (tryPhase cfg t fs h).start_byte = (resumeProlog t fs).1 ∧
    (tryPhase cfg t fs h).sentRange =
      (if 0 < (resumeProlog t fs).1
        then some ("bytes=" ++ toString (resumeProlog t fs).1 ++ "-")
        else none) := by
  cases h with
  | connectError msg => exact ⟨rfl, rfl⟩
  | response sc cl evs serr =>
    by_cases hsc : sc = 200 ∨ sc = 206
    · simp only [tryPhase, if_pos hsc]
      obtain ⟨g1, g2, g3⟩ := streamAndFinish_ghosts cfg
        (if 0 < (resumeProlog t fs).1
          then some ("bytes=" ++ toString (resumeProlog t fs).1 ++ "-")
          else none)
        (resumeProlog t fs).1
        (totalSizePhase sc cl (resumeProlog t fs).1 (resumeProlog t fs).2)
        fs evs serr
      exact ⟨g1, g2⟩
    · simp only [tryPhase, if_neg hsc]
      constructor <;> trivial

theorem resumeProlog_downloaded (t : DownloadTask) (fs : TaskFS)
    (hds : fs.temp = none → t.downloaded_size = 0) :
    (resumeProlog t fs).2.downloaded_size = (resumeProlog t fs).1 := by
  cases hft : fs.temp with
  | none => simpa [resumeProlog, hft] using hds hft
  | some n => simp [resumeProlog, hft]

theorem countP_congr_mem {α : Type} (p q : α → Bool) :
    ∀ l : List α, (∀ e ∈ l, p e = q e) → l.countP p = l.countP q := by
  intro l
  induction l with
  | nil => intro _; rfl
  | cons a l ih =>
    intro h
    rw [List.countP_cons, List.countP_cons, h a (by simp),
      ih (fun e he => h e (by simp [he]))]

theorem countP_filter_keep {α : Type} (p q : α → Bool) :
    ∀ l : List α, (∀ e ∈ l, p e = true → q e = true) →
      (l.filter q).countP p = l.countP p := by
  intro l
  induction l with
  | nil => intro _; rfl
  | cons a l ih =>
    intro h
    have ht := ih (fun e he hp => h e (by simp [he]) hp)
    by_cases hq : q a = true
    · rw [List.filter_cons_of_pos hq, List.countP_cons, List.countP_cons, ht]
    · have hp : p a = false := by
        cases hpa : p a
        · rfl
        · exact absurd (h a (by simp) hpa) hq
      rw [List.filter_cons_of_neg (by simp [hq]), List.countP_cons, ht, hp]
      simp

theorem pause_download_fields (t : DownloadTask) :
    (pause_download t).status = t.status ∧
    (pause_download t).hasWorker = t.hasWorker ∧
    (pause_download t).retry_count = t.retry_count ∧
    (pause_download t).completionCalls = t.completionCalls ∧
    (pause_download t).everFailed = t.everFailed ∧
    (pause_download t).error_message = t.error_message := by
  unfold pause_download
  split_ifs <;> simp

theorem resume_download_fields (t : DownloadTask) :
    (resume_download t).status = t.status ∧
    (resume_download t).hasWorker = t.hasWorker ∧
    (resume_download t).retry_count = t.retry_count ∧
    (resume_download t).completionCalls = t.completionCalls ∧
    (resume_download t).everFailed = t.everFailed ∧
    (resume_download t).error_message = t.error_message := by
  unfold resume_download
  split_ifs <;> simp

theorem entryOK_no_worker (cfg : ManagerCfg) (e : TaskEntry)
    (he : entryOK cfg e) (hq : ¬ e.task.status = DownloadStatus.downloading) :
    e.task.hasWorker = false := by
  obtain ⟨hiff, _, _, _, _⟩ := he
  cases hb : e.task.hasWorker
  · rfl
  · exact absurd (hiff.mp hb) hq

theorem entryOK_calls_zero (cfg : ManagerCfg) (e : TaskEntry)
    (he : entryOK cfg e) (hq : ¬ e.task.status = DownloadStatus.completed) :
    e.task.completionCalls = 0 := by
  obtain ⟨_, _, _, hc2, _⟩ := he
  by_contra hne
  exact hq (hc2 (Nat.one_le_iff_ne_zero.mpr hne))

theorem startLoop_inv (cfg : ManagerCfg) :
    ∀ (l ts : List TaskEntry), startLoop l = some ts →
      (∀ e ∈ l, entryOK cfg e) →
      (∀ e ∈ ts, entryOK cfg e) ∧ countWorkers ts = countWorkers l + 1 := by
  intro l
  induction l with
  | nil => intro ts h; cases h
  | cons e es ih =>
    intro ts hts hOK
    by_cases hq : e.task.status = DownloadStatus.queued
    · rw [startLoop, if_pos hq] at hts
      obtain rfl : admitEntry e :: es = ts := by
        simpa using hts
      have heOK := hOK e (by simp)
      obtain ⟨hiff, hrc, hc1, hc2, hef⟩ := heOK
      have hwf : e.task.hasWorker = false :=
        entryOK_no_worker cfg e ⟨hiff, hrc, hc1, hc2, hef⟩ (by simp [hq])
      have hc0 : e.task.completionCalls = 0 :=
        entryOK_calls_zero cfg e ⟨hiff, hrc, hc1, hc2, hef⟩ (by simp [hq])
      constructor
      · intro x hx
        rcases List.mem_cons.mp hx with rfl | hx
        · refine ⟨by simp [admitEntry], by simpa [admitEntry] using hrc,
            by simp [admitEntry, hc0], by simp [admitEntry, hc0],
            by simpa [admitEntry] using hef⟩
        · exact hOK x (by simp [hx])
      · simp [countWorkers, List.countP_cons, admitEntry, hwf]
    · rw [startLoop, if_neg hq] at hts
      obtain ⟨ts', hts', rfl⟩ := Option.map_eq_some'.mp hts
      obtain ⟨hOK', hcw⟩ := ih ts' hts' (fun x hx => hOK x (by simp [hx]))
      constructor
      · intro x hx
        rcases List.mem_cons.mp hx with rfl | hx
        · exact hOK x (by simp)
        · exact hOK' x hx
      · rw [countWorkers, countWorkers, List.countP_cons, List.countP_cons]
        rw [countWorkers, countWorkers] at hcw
        omega

theorem start_next_download_inv (cfg : ManagerCfg) (m : Manager)
    (h : Inv cfg m) : Inv cfg (start_next_download cfg m) := by
  unfold start_next_download
  split_ifs with hge
  · exact h
  · cases hsl : startLoop m.tasks with
    | none => exact h
    | some ts =>
      obtain ⟨h1, h2, h3⟩ := h
      obtain ⟨hOK, hcw⟩ := startLoop_inv cfg m.tasks ts hsl h3
      refine ⟨?_, ?_, hOK⟩
      · show m.active_downloads + 1 = countWorkers ts
        rw [hcw, h1]
      · show m.active_downloads + 1 ≤ cfg.max_concurrent_downloads
        omega

theorem add_download_inv (cfg : ManagerCfg) (m : Manager) (u d f : String)
    (fs : TaskFS) (h : Inv cfg m) :
    Inv cfg (add_download cfg m (newTask u d f) fs).1 := by
  obtain ⟨h1, h2, h3⟩ := h
  unfold add_download
  split_ifs with hex
  · refine ⟨?_, h2, ?_⟩
    · show m.active_downloads = countWorkers (m.tasks ++ _)
      rw [countWorkers, List.countP_append, h1, countWorkers]
      simp [newTask]
    · intro e he
      rcases List.mem_append.mp he with he | he
      · exact h3 e he
      · rw [List.mem_singleton] at he
        subst he
        exact ⟨by simp [newTask], by simp [newTask], by simp [newTask],
          by simp [newTask], by simp [newTask]⟩
  · apply start_next_download_inv
    refine ⟨?_, h2, ?_⟩
    · show m.active_downloads = countWorkers (m.tasks ++ _)
      rw [countWorkers, List.countP_append, h1, countWorkers]
      simp [newTask]
    · intro e he
      rcases List.mem_append.mp he with he | he
      · exact h3 e he
      · rw [List.mem_singleton] at he
        subst he
        exact ⟨by simp [newTask], by simp [newTask], by simp [newTask],
          by simp [newTask], by simp [newTask]⟩

theorem finishEntry_ok (cfg : ManagerCfg) (e : TaskEntry) (h : HttpOutcome)
    (he : entryOK cfg e) (hw : e.task.hasWorker = true) :
    entryOK cfg (finishEntry cfg e h) ∧
    (finishEntry cfg e h).task.hasWorker = false := by
  have hst : e.task.status = DownloadStatus.downloading := he.1.mp hw
  have hc0 : e.task.completionCalls = 0 :=
    entryOK_calls_zero cfg e he (by simp [hst])
  obtain ⟨_, hrc, _, _, hef⟩ := he
  obtain ⟨f1, f2, f3, f4, f5, f6⟩ := download_file_fields cfg e.task e.fs h
  have g0 : (finishEntry cfg e h).task.hasWorker = false := rfl
  have g1 : (finishEntry cfg e h).task.status
      = (download_file cfg e.task e.fs h).task.status := rfl
  have g2 : (finishEntry cfg e h).task.retry_count
      = (download_file cfg e.task e.fs h).task.retry_count := rfl
  have g3 : (finishEntry cfg e h).task.completionCalls
      = (download_file cfg e.task e.fs h).task.completionCalls := rfl
  have g4 : (finishEntry cfg e h).task.everFailed
      = (download_file cfg e.task e.fs h).task.everFailed := rfl
  have g5 : (finishEntry cfg e h).task.error_message
      = (download_file cfg e.task e.fs h).task.error_message := rfl
  refine ⟨⟨?_, ?_, ?_, ?_, ?_⟩, g0⟩
  · rw [g0, g1]
    constructor
    · intro hcontra; cases hcontra
    · intro hdl
      rcases f2 with h' | h' | h' <;> rw [h'] at hdl <;> cases hdl
  · rw [g2]
    rcases f3 with h' | ⟨hlt, h'⟩
    · rw [h']; exact hrc
    · rw [h']; omega
  · rw [g3]
    rcases f4 with h' | ⟨h', _⟩ <;> rw [h', hc0]
    omega
  · rw [g3, g1]
    intro hone
    rcases f4 with h' | ⟨_, h'⟩
    · rw [h', hc0] at hone; omega
    · exact h'
  · rw [g4, g5]
    intro hefF
    rcases f5 with ⟨hb1, hb2⟩ | hb
    · rw [hb2]
      exact hef (hb1 ▸ hefF)
    · rw [hefF] at hb
      cases hb

theorem step_preserves_inv (cfg : ManagerCfg) (m m' : Manager)
    (hstep : Step cfg m m') (hinv : Inv cfg m) : Inv cfg m' := by
  cases hstep with
  | submit m u d f fs => exact add_download_inv cfg m u d f fs hinv
  | workerFinish pre post e a h hw =>
    obtain ⟨h1, h2, h3⟩ := hinv
    have heOK := h3 e (by simp)
    obtain ⟨fOK, fW⟩ := finishEntry_ok cfg e h heOK hw
    apply start_next_download_inv
    have hold : a = (pre.countP fun x => x.task.hasWorker)
        + ((post.countP fun x => x.task.hasWorker) + 1) := by
      simpa [countWorkers, List.countP_append, List.countP_cons, hw] using h1
    have h2' : a ≤ cfg.max_concurrent_downloads := h2
    refine ⟨?_, ?_, ?_⟩
    · show a - 1 = countWorkers (pre ++ finishEntry cfg e h :: post)
      have hnew : countWorkers (pre ++ finishEntry cfg e h :: post)
          = (pre.countP fun x => x.task.hasWorker)
            + (post.countP fun x => x.task.hasWorker) := by
        simp [countWorkers, List.countP_append, List.countP_cons, fW]
      omega
    · show a - 1 ≤ cfg.max_concurrent_downloads
      omega
    · intro x hx
      rcases List.mem_append.mp hx with hx | hx
      · exact h3 x (by simp [hx])
      · rcases List.mem_cons.mp hx with rfl | hx
        · exact fOK
        · exact h3 x (by simp [hx])
  | pauseReq pre post e a =>
    obtain ⟨h1, h2, h3⟩ := hinv
    obtain ⟨q1, q2, q3, q4, q5, q6⟩ := pause_download_fields e.task
    have h1' : a = countWorkers (pre ++ e :: post) := h1
    refine ⟨?_, h2, ?_⟩
    · show a = countWorkers (pre ++ _ :: post)
      rw [h1']
      simp [countWorkers, List.countP_append, List.countP_cons, q2]
    · intro x hx
      rcases List.mem_append.mp hx with hx | hx
      · exact h3 x (by simp [hx])
      · rcases List.mem_cons.mp hx with rfl | hx
        · obtain ⟨hiff, hrc, hc1, hc2, hef⟩ := h3 e (by simp)
          exact ⟨by rw [q1, q2]; exact hiff, by rw [q3]; exact hrc,
            by rw [q4]; exact hc1, by rw [q4, q1]; exact hc2,
            by rw [q5, q6]; exact hef⟩
        · exact h3 x (by simp [hx])
  | resumeReq pre post e a =>
    obtain ⟨h1, h2, h3⟩ := hinv
    obtain ⟨q1, q2, q3, q4, q5, q6⟩ := resume_download_fields e.task
    have h1' : a = countWorkers (pre ++ e :: post) := h1
    refine ⟨?_, h2, ?_⟩
    · show a = countWorkers (pre ++ _ :: post)
      rw [h1']
      simp [countWorkers, List.countP_append, List.countP_cons, q2]
    · intro x hx
      rcases List.mem_append.mp hx with hx | hx
      · exact h3 x (by simp [hx])
      · rcases List.mem_cons.mp hx with rfl | hx
        · obtain ⟨hiff, hrc, hc1, hc2, hef⟩ := h3 e (by simp)
          exact ⟨by rw [q1, q2]; exact hiff, by rw [q3]; exact hrc,
            by rw [q4]; exact hc1, by rw [q4, q1]; exact hc2,
            by rw [q5, q6]; exact hef⟩
        · exact h3 x (by simp [hx])
  | cleanup m =>
    obtain ⟨h1, h2, h3⟩ := hinv
    refine ⟨?_, h2, ?_⟩
    · show m.active_downloads = countWorkers (m.tasks.filter _)
      rw [h1, countWorkers, countWorkers]
      rw [countP_filter_keep]
      intro e he hp
      have hdl := (h3 e he).1.mp hp
      simp [hdl]
    · intro x hx
      exact h3 x (List.mem_of_mem_filter hx)

theorem reachable_inv (cfg : ManagerCfg) (m : Manager)
    (h : Reachable cfg m) : Inv cfg m := by
  induction h with
  | init =>
    refine ⟨rfl, Nat.zero_le _, ?_⟩
    intro e he
    cases he
  | step hr hs ih => exact step_preserves_inv cfg _ _ hs ih

theorem processChunk_temp (cfg : ManagerCfg) (t : DownloadTask) (fs : TaskFS)
    (ev : ChunkEvent) (hr : (processChunk cfg t fs ev).raised = none) :
    (processChunk cfg t fs ev).fs.temp = some (fs.temp.getD 0 + ev.size) := by
  by_cases hs : ev.stoppedAtCheck = true
  · simp [processChunk, hs] at hr
  · by_cases hp : ev.pausedAtCheck = true
    · by_cases hw : ev.stoppedAfterWait = true
      · simp [processChunk, hs, hp, hw] at hr
      · simp [processChunk, writeChunk, hs, hp, hw]
    · simp [processChunk, writeChunk, hs, hp]

theorem runChunks_temp (cfg : ManagerCfg) (evs : List ChunkEvent) :
    ∀ (t : DownloadTask) (fs : TaskFS) (n : ℕ), fs.temp = some n →
      (runChunks cfg evs t fs).raised = none →
      (runChunks cfg evs t fs).fs.temp = some (n + sumSizes evs) := by
  induction evs with
  | nil =>
    intro t fs n hn _
    simpa [runChunks, sumSizes] using hn
  | cons ev evs ih =>
    intro t fs n hn hr
    cases hpc : (processChunk cfg t fs ev).raised with
    | some e =>
      exfalso
      simp only [runChunks, hpc] at hr
      cases hr
    | none =>
      have htemp : (processChunk cfg t fs ev).fs.temp = some (n + ev.size) := by
        simp [processChunk_temp cfg t fs ev hpc, hn]
      have hrest : (runChunks cfg evs (processChunk cfg t fs ev).task
          (processChunk cfg t fs ev).fs).raised = none := by
        simpa [runChunks, hpc] using hr
      have hres := ih (processChunk cfg t fs ev).task
          (processChunk cfg t fs ev).fs (n + ev.size) htemp hrest
      simp only [runChunks, hpc]
      rw [hres]
      congr 1
      simp [sumSizes]
      omega

theorem openTemp_start (t : DownloadTask) (fs : TaskFS) :
    (openTemp (resumeProlog t fs).1 fs).temp = some (resumeProlog t fs).1 := by
  cases hft : fs.temp with
  | none => simp [resumeProlog, hft, openTemp]
  | some n =>
    simp only [resumeProlog, hft]
    unfold openTemp
    split_ifs with h0
    · exact hft
    · have hz : n = 0 := by omega
      simp [hz]

theorem tryPhase_success_fs (cfg : ManagerCfg) (t : DownloadTask)
    (fs : TaskFS) (sc : ℕ) (cl : Option ℕ) (evs : List ChunkEvent)
    (hr : (tryPhase cfg t fs (HttpOutcome.response sc cl evs none)).raised = none) :
    (tryPhase cfg t fs (HttpOutcome.response sc cl evs none)).fs.finalSize
      = some ((resumeProlog t fs).1 + sumSizes evs) := by
  by_cases hsc : sc = 200 ∨ sc = 206
  · simp only [tryPhase, if_pos hsc, streamAndFinish] at hr ⊢
    cases hcc : (runChunks cfg evs
        (totalSizePhase sc cl (resumeProlog t fs).1 (resumeProlog t fs).2)
        (openTemp (resumeProlog t fs).1 fs)).raised with
    | some e =>
      rw [hcc] at hr
      simp at hr
    | none =>
      show (runChunks cfg evs
          (totalSizePhase sc cl (resumeProlog t fs).1 (resumeProlog t fs).2)
          (openTemp (resumeProlog t fs).1 fs)).fs.temp
        = some ((resumeProlog t fs).1 + sumSizes evs)
      exact runChunks_temp cfg evs _ _ _ (openTemp_start t fs) hcc
  · simp only [tryPhase, if_neg hsc] at hr
    simp at hr

/-! More helper lemmas and claim theorems -/

/-- Claim C8 (confirmed): at the start of every attempt, `start_byte` is the
temp file's size when it exists and 0 otherwise; after the prologue
`downloaded_size` equals `start_byte` (for any task state consistent with
its filesystem, i.e. `downloaded_size = 0` when no temp file exists); the
GET carries a `Range: bytes=start_byte-` header iff `start_byte > 0`; and
when an accepted response arrives, the temp file is opened for append iff
`start_byte > 0` and for truncate-write otherwise. -/
theorem c8_attempt_start (cfg : ManagerCfg) (t0 : DownloadTask) (fs0 : TaskFS)
    (h : HttpOutcome) (hds : fs0.temp = none → t0.downloaded_size = 0) :
    (∀ n, fs0.temp = some n → (tryPhase cfg t0 fs0 h).start_byte = n) ∧
    (fs0.temp = none → (tryPhase cfg t0 fs0 h).start_byte = 0) ∧
    (resumeProlog t0 fs0).2.downloaded_size = (tryPhase cfg t0 fs0 h).start_byte ∧
    ((tryPhase cfg t0 fs0 h).sentRange =
      if 0 < (tryPhase cfg t0 fs0 h).start_byte
      then some ("bytes=" ++ toString (tryPhase cfg t0 fs0 h).start_byte ++ "-")
      else none) ∧
    (∀ sc cl evs serr, h = HttpOutcome.response sc cl evs serr →
      (sc = 200 ∨ sc = 206) →
      (tryPhase cfg t0 fs0 h).openMode =
        some (if 0 < (tryPhase cfg t0 fs0 h).start_byte then "ab" else "wb")) := by
  obtain ⟨g1, g2⟩ := tryPhase_ghosts cfg t0 fs0 h
  refine ⟨?_, ?_, ?_, ?_, ?_⟩
  · intro n hn
    rw [g1]
    simp [resumeProlog, hn]
  · intro hn
    rw [g1]
    simp [resumeProlog, hn]
  · rw [g1]
    exact resumeProlog_downloaded t0 fs0 hds
  · rw [g2, g1]
  · intro sc cl evs serr hh hsc
    subst hh
    rw [g1]
    simp only [tryPhase, if_pos hsc]
    exact (streamAndFinish_ghosts cfg
      (if 0 < (resumeProlog t0 fs0).1
        then some ("bytes=" ++ toString (resumeProlog t0 fs0).1 ++ "-")
        else none)
      (resumeProlog t0 fs0).1
      (totalSizePhase sc cl (resumeProlog t0 fs0).1 (resumeProlog t0 fs0).2)
      fs0 evs serr).2.2

/-- Witness for C8: resuming from a 7-byte temp file. -/
theorem c8_witness :
    (tryPhase cfg3 tA ⟨none, some 7⟩ successOutcome).start_byte = 7 ∧
    (resumeProlog tA ⟨none, some 7⟩).2.downloaded_size
      = (tryPhase cfg3 tA ⟨none, some 7⟩ successOutcome).start_byte ∧
    (tryPhase cfg3 tA ⟨none, some 7⟩ successOutcome).sentRange
      = some "bytes=7-" ∧
    (tryPhase cfg3 tA ⟨none, some 7⟩ successOutcome).openMode = some "ab" := by
  obtain ⟨w1, w2, w3, w4, w5⟩ :=
    c8_attempt_start cfg3 tA ⟨none, some 7⟩ successOutcome (by decide)
  have hsb := w1 7 rfl
  refine ⟨hsb, w3, ?_, ?_⟩
  · rw [w4, hsb]
    rfl
  · rw [w5 200 (some 10) [evPlain] none rfl (Or.inl rfl), hsb]
    rfl

theorem runChunks_noStop_raised_none (cfg : ManagerCfg)
    (evs : List ChunkEvent)
    (hev : ∀ ev ∈ evs, ev.stoppedAtCheck = false ∧
      (ev.pausedAtCheck = true → ev.stoppedAfterWait = false)) :
    ∀ (t : DownloadTask) (fs : TaskFS),
      (runChunks cfg evs t fs).raised = none := by
  induction evs with
  | nil => intro t fs; rfl
  | cons ev evs ih =>
    intro t fs
    obtain ⟨h1, h2⟩ := hev ev (by simp)
    have hpc : (processChunk cfg t fs ev).raised = none := by
      cases hp : ev.pausedAtCheck with
      | false => simp [processChunk, writeChunk, h1, hp]
      | true => simp [processChunk, writeChunk, h1, hp, h2 hp]
    simp only [runChunks, hpc]
    exact ih (fun e he => hev e (by simp [he])) _ _

theorem nonStop_raises (cfg : ManagerCfg) (t : DownloadTask) (fs : TaskFS)
    (h : HttpOutcome) (hf : NonStopFailure h) :
    ∃ e, (tryPhase cfg t fs h).raised = some e := by
  cases hf with
  | connect msg => exact ⟨msg, rfl⟩
  | badStatus sc cl evs serr h200 h206 =>
    have hsc : ¬ (sc = 200 ∨ sc = 206) := by tauto
    exact ⟨"HTTP " ++ toString sc, by simp [tryPhase, hsc]⟩
  | streamFail sc cl evs msg hev =>
    by_cases hsc : sc = 200 ∨ sc = 206
    · refine ⟨msg, ?_⟩
      simp only [tryPhase, if_pos hsc, streamAndFinish]
      rw [runChunks_noStop_raised_none cfg evs hev]
    · exact ⟨"HTTP " ++ toString sc, by simp [tryPhase, hsc]⟩

theorem iterAttempts_append (cfg : ManagerCfg) (xs ys : List HttpOutcome) :
    ∀ e, iterAttempts cfg (xs ++ ys) e
      = iterAttempts cfg ys (iterAttempts cfg xs e) := by
  induction xs with
  | nil => intro e; rfl
  | cons x xs ih =>
    intro e
    simp only [List.cons_append, iterAttempts]
    exact ih _

theorem take_succ_getD {α : Type} [Inhabited α] (l : List α) (k : ℕ)
    (hk : k < l.length) :
    l.take (k + 1) = l.take k ++ [l.getD k default] := by
  induction l generalizing k with
  | nil => simp at hk
  | cons a l ih =>
    cases k with
    | zero => simp
    | succ k =>
      have := ih k (by simpa using hk)
      simp [List.take_succ_cons, List.getD_cons_succ, this]

/-! Claim theorems -/

/-- Claim C5 (confirmed): `_start_next_download` does nothing when the
active-worker count is at or above the ceiling; below the ceiling it admits
exactly the first QUEUED task in list order — incrementing the active count,
marking it DOWNLOADING and launching its worker (`admitEntry`) — and changes
nothing when no task is QUEUED. -/
theorem c5_start_next_download (cfg : ManagerCfg) (m : Manager) :
    (cfg.max_concurrent_downloads ≤ m.active_downloads →
      start_next_download cfg m = m) ∧
    (m.active_downloads < cfg.max_concurrent_downloads →
      ((∀ e ∈ m.tasks, ¬ e.task.status = DownloadStatus.queued) →
        start_next_download cfg m = m) ∧
      (∀ i, FirstQueuedAt m.tasks i →
        start_next_download cfg m =
          { tasks := m.tasks.set i (admitEntry (m.tasks.getD i default)),
            active_downloads := m.active_downloads + 1 })) := by
  refine ⟨?_, fun hlt => ⟨?_, ?_⟩⟩
  · intro hge
    simp [start_next_download, hge]
  · intro hnone
    simp [start_next_download, Nat.not_le.mpr hlt, startLoop_none m.tasks hnone]
  · intro i hfq
    simp [start_next_download, Nat.not_le.mpr hlt,
      startLoop_firstQueued m.tasks i hfq]

/-- Witness for C5: in a two-task list whose head is COMPLETED and whose
second task is QUEUED, with a free slot, admission selects index 1. -/
theorem c5_witness :
    start_next_download cfg3 ⟨[⟨{ tA with status := DownloadStatus.completed }, fsFinal⟩, ⟨tA, fsNone⟩], 0⟩ =
      { tasks := ([⟨{ tA with status := DownloadStatus.completed }, fsFinal⟩, ⟨tA, fsNone⟩] : List TaskEntry).set 1
          (admitEntry (([⟨{ tA with status := DownloadStatus.completed }, fsFinal⟩, ⟨tA, fsNone⟩] : List TaskEntry).getD 1 default)),
        active_downloads := 0 + 1 } :=
  ((c5_start_next_download cfg3
      ⟨[⟨{ tA with status := DownloadStatus.completed }, fsFinal⟩, ⟨tA, fsNone⟩], 0⟩).2
    (by decide)).2 1 (by decide)

/-- Claim C4 (confirmed): submitting a task whose destination file already
exists marks it COMPLETED with progress 100, appends it, returns `false`,
calls no `makedirs`, launches no worker and performs no network I/O (the
manager's other entries and active count are untouched); otherwise the
destination directory is created, the task is appended QUEUED, admission is
attempted, and `true` is returned. -/
theorem c4_add_download (cfg : ManagerCfg) (m : Manager) (t : DownloadTask)
    (fs : TaskFS) (hq : t.status = DownloadStatus.queued)
    (hw : t.hasWorker = false) :
    (fileExists fs = true →
      add_download cfg m t fs =
        ({ m with tasks := m.tasks ++
            [{ task := { t with status := DownloadStatus.completed, progress := 100 },
               fs := fs }] }, false, false) ∧
      ∀ e ∈ (add_download cfg m t fs).1.tasks, e ∈ m.tasks ∨
        (e.task.status = DownloadStatus.completed ∧ e.task.progress = 100 ∧
          e.task.hasWorker = false ∧ e.fs = fs)) ∧
    (fileExists fs = false →
      add_download cfg m t fs =
        (start_next_download cfg
          { m with tasks := m.tasks ++ [{ task := t, fs := fs }] },
         true, true) ∧
      ({ task := t, fs := fs } : TaskEntry).task.status = DownloadStatus.queued) := by
  constructor
  · intro hfs
    have heq : add_download cfg m t fs =
        ({ m with tasks := m.tasks ++
            [{ task := { t with status := DownloadStatus.completed, progress := 100 },
               fs := fs }] }, false, false) := by
      simp [add_download, hfs]
    refine ⟨heq, ?_⟩
    intro e he
    rw [heq] at he
    simp only [List.mem_append, List.mem_singleton] at he
    rcases he with he | he
    · exact Or.inl he
    · subst he
      exact Or.inr ⟨rfl, rfl, hw, rfl⟩
  · intro hfs
    exact ⟨by simp [add_download, hfs], hq⟩

/-- Witness for C4 at concrete inputs: both branches. -/
theorem c4_witness :
    (add_download cfg3 ⟨[], 0⟩ tA fsFinal).2.1 = false ∧
    (add_download cfg3 ⟨[], 0⟩ tA fsNone).2.1 = true := by
  have h2 := (c4_add_download cfg3 ⟨[], 0⟩ tA fsFinal rfl rfl).1 rfl
  have h1 := (c4_add_download cfg3 ⟨[], 0⟩ tA fsNone rfl rfl).2 rfl
  exact ⟨by rw [h2.1], by rw [h1.1]⟩

/-- Claim C10 (confirmed): the speed-throttle computation
`len(chunk) / (max_download_speed * 1024)` is evaluated only when
`max_download_speed` is neither `None` nor `0`; with a ceiling of `None` or
`0` no throttle sleep occurs at all (unlimited speed), so the division in
the throttle branch never divides by zero. -/
theorem c10_throttle_guard :
    (∀ (cfg : ManagerCfg) (evs : List ChunkEvent) (t : DownloadTask) (fs : TaskFS),
      cfg.max_download_speed = none ∨ cfg.max_download_speed = some 0 →
      (runChunks cfg evs t fs).sleeps = []) ∧
    (∀ (s len : ℕ) (d : ℚ), throttleDelay (some s) len = some d →
      s ≠ 0 ∧ ((s : ℚ) * 1024) ≠ 0 ∧ d = (len : ℚ) / ((s : ℚ) * 1024)) := by
  constructor
  · intro cfg evs t fs hc
    exact runChunks_sleeps_nil cfg hc evs t fs
  · intro s len d h
    by_cases hs : s = 0
    · subst hs; simp [throttleDelay] at h
    · refine ⟨hs, ?_, ?_⟩
      · have : (s : ℚ) ≠ 0 := by exact_mod_cast hs
        positivity
      · simp [throttleDelay, hs] at h
        exact h.symm

/-- Witness for C10 at concrete inputs. -/
theorem c10_throttle_guard_witness :
    (runChunks cfg3 [evPlain] tA fsNone).sleeps = [] ∧
    (512 : ℕ) ≠ 0 ∧ (((512 : ℕ) : ℚ) * 1024) ≠ 0 ∧
    (((8192 : ℕ) : ℚ) / (((512 : ℕ) : ℚ) * 1024)
      = ((8192 : ℕ) : ℚ) / (((512 : ℕ) : ℚ) * 1024)) :=
  ⟨c10_throttle_guard.1 cfg3 [evPlain] tA fsNone (Or.inl rfl),
   c10_throttle_guard.2 512 8192 _ rfl⟩

/-- Claim C2 (confirmed): a task all of whose attempts fail with non-stop
failures reaches ERROR after exactly `max_retries + 1` attempts: each failed
non-final attempt increments `retry_count` by 1 and re-queues the task with
the temp file exactly as the failed try-phase left it (the handler deletes
nothing), and after the final failing attempt the temp file is deleted. -/
theorem c2_retry_exhaustion (cfg : ManagerCfg) (t0 : DownloadTask)
    (fs0 : TaskFS) (hs : List HttpOutcome) (hrc : t0.retry_count = 0)
    (hlen : hs.length = cfg.max_retries + 1)
    (hfail : ∀ h ∈ hs, NonStopFailure h) :
    (iterAttempts cfg hs ⟨t0, fs0⟩).task.status = DownloadStatus.error ∧
    (iterAttempts cfg hs ⟨t0, fs0⟩).task.retry_count = cfg.max_retries ∧
    (iterAttempts cfg hs ⟨t0, fs0⟩).fs.temp = none ∧
    (∀ k, k < cfg.max_retries →
      (iterAttempts cfg (hs.take (k+1)) ⟨t0, fs0⟩).task.status
        = DownloadStatus.queued ∧
      (iterAttempts cfg (hs.take (k+1)) ⟨t0, fs0⟩).task.retry_count = k + 1 ∧
      (iterAttempts cfg (hs.take (k+1)) ⟨t0, fs0⟩).fs =
        (tryPhase cfg (iterAttempts cfg (hs.take k) ⟨t0, fs0⟩).task
          (iterAttempts cfg (hs.take k) ⟨t0, fs0⟩).fs (hs.getD k default)).fs) := by
  have hstep : ∀ k, k < hs.length →
      iterAttempts cfg (hs.take (k+1)) ⟨t0, fs0⟩ =
        ⟨(download_file cfg (iterAttempts cfg (hs.take k) ⟨t0, fs0⟩).task
            (iterAttempts cfg (hs.take k) ⟨t0, fs0⟩).fs (hs.getD k default)).task,
          (download_file cfg (iterAttempts cfg (hs.take k) ⟨t0, fs0⟩).task
            (iterAttempts cfg (hs.take k) ⟨t0, fs0⟩).fs (hs.getD k default)).fs⟩ := by
    intro k hk
    rw [take_succ_getD hs k hk, iterAttempts_append]
    rfl
  have hmem : ∀ k, k < hs.length → NonStopFailure (hs.getD k default) := by
    intro k hk
    rw [List.getD_eq_getElem hs default hk]
    exact hfail _ (List.getElem_mem hk)
  have hind : ∀ k, k ≤ cfg.max_retries →
      (iterAttempts cfg (hs.take k) ⟨t0, fs0⟩).task.retry_count = k ∧
      (0 < k → (iterAttempts cfg (hs.take k) ⟨t0, fs0⟩).task.status
        = DownloadStatus.queued) := by
    intro k
    induction k with
    | zero =>
      intro _
      refine ⟨?_, ?_⟩
      · simpa [iterAttempts] using hrc
      · intro h0; omega
    | succ k ih =>
      intro hk1
      obtain ⟨ihrc, _⟩ := ih (by omega)
      have hklen : k < hs.length := by omega
      obtain ⟨e, he⟩ := nonStop_raises cfg
        (iterAttempts cfg (hs.take k) ⟨t0, fs0⟩).task
        (iterAttempts cfg (hs.take k) ⟨t0, fs0⟩).fs
        (hs.getD k default) (hmem k hklen)
      have hlt : (iterAttempts cfg (hs.take k) ⟨t0, fs0⟩).task.retry_count
          < cfg.max_retries := by rw [ihrc]; omega
      obtain ⟨_, _, _, _, h5, _⟩ := download_file_raised_some cfg
        (iterAttempts cfg (hs.take k) ⟨t0, fs0⟩).task
        (iterAttempts cfg (hs.take k) ⟨t0, fs0⟩).fs
        (hs.getD k default) e he
      obtain ⟨s1, s2, s3⟩ := h5 hlt
      rw [hstep k hklen]
      constructor
      · simpa [ihrc] using s2
      · intro _
        simpa using s1
  have hfull : hs.take (cfg.max_retries + 1) = hs := by
    rw [← hlen]
    exact List.take_length hs
  have hmaxlen : cfg.max_retries < hs.length := by omega
  obtain ⟨ihrc, _⟩ := hind cfg.max_retries (le_refl _)
  obtain ⟨e, he⟩ := nonStop_raises cfg
    (iterAttempts cfg (hs.take cfg.max_retries) ⟨t0, fs0⟩).task
    (iterAttempts cfg (hs.take cfg.max_retries) ⟨t0, fs0⟩).fs
    (hs.getD cfg.max_retries default) (hmem cfg.max_retries hmaxlen)
  obtain ⟨_, _, _, _, _, h6⟩ := download_file_raised_some cfg
    (iterAttempts cfg (hs.take cfg.max_retries) ⟨t0, fs0⟩).task
    (iterAttempts cfg (hs.take cfg.max_retries) ⟨t0, fs0⟩).fs
    (hs.getD cfg.max_retries default) e he
  have hnlt : ¬ (iterAttempts cfg (hs.take cfg.max_retries) ⟨t0, fs0⟩).task.retry_count
      < cfg.max_retries := by rw [ihrc]; omega
  obtain ⟨c1, c2, c3, c4⟩ := h6 hnlt
  have hlast := hstep cfg.max_retries hmaxlen
  rw [hfull] at hlast
  refine ⟨?_, ?_, ?_, ?_⟩
  · rw [hlast]
    simpa using c1
  · rw [hlast]
    simpa [ihrc] using c2
  · rw [hlast]
    simpa using c3
  · intro k hk
    obtain ⟨rck, stk⟩ := hind (k+1) (by omega)
    refine ⟨stk (by omega), rck, ?_⟩
    have hklen : k < hs.length := by omega
    obtain ⟨e', he'⟩ := nonStop_raises cfg
      (iterAttempts cfg (hs.take k) ⟨t0, fs0⟩).task
      (iterAttempts cfg (hs.take k) ⟨t0, fs0⟩).fs
      (hs.getD k default) (hmem k hklen)
    obtain ⟨rk, _⟩ := hind k (by omega)
    have hltk : (iterAttempts cfg (hs.take k) ⟨t0, fs0⟩).task.retry_count
        < cfg.max_retries := by rw [rk]; omega
    obtain ⟨_, _, _, _, h5', _⟩ := download_file_raised_some cfg
      (iterAttempts cfg (hs.take k) ⟨t0, fs0⟩).task
      (iterAttempts cfg (hs.take k) ⟨t0, fs0⟩).fs
      (hs.getD k default) e' he'
    obtain ⟨_, _, s3'⟩ := h5' hltk
    rw [hstep k hklen]
    simpa using s3'

/-- Witness for C2 with retry budget 1 and two failing attempts. -/
theorem c2_witness :
    (iterAttempts cfg1 [HttpOutcome.connectError "a", HttpOutcome.connectError "b"]
      ⟨tA, fsNone⟩).task.status = DownloadStatus.error ∧
    (iterAttempts cfg1 [HttpOutcome.connectError "a", HttpOutcome.connectError "b"]
      ⟨tA, fsNone⟩).task.retry_count = cfg1.max_retries ∧
    (iterAttempts cfg1 [HttpOutcome.connectError "a", HttpOutcome.connectError "b"]
      ⟨tA, fsNone⟩).fs.temp = none := by
  have hf : ∀ h ∈ [HttpOutcome.connectError "a", HttpOutcome.connectError "b"],
      NonStopFailure h := by
    intro h hh
    simp only [List.mem_cons, List.not_mem_nil, or_false] at hh
    rcases hh with rfl | rfl <;> exact NonStopFailure.connect _
  obtain ⟨x1, x2, x3, _⟩ := c2_retry_exhaustion cfg1 tA fsNone
    [HttpOutcome.connectError "a", HttpOutcome.connectError "b"] rfl rfl hf
  exact ⟨x1, x2, x3⟩

/-- Claim C1 (code bug): an attempt that ends because the `stopped` flag was
observed set does **not** mark the task STOPPED: the generic `except`
handler (lines 202–221) treats the stop exception like any other failure,
re-queueing the task and incrementing `retry_count` while budget remains
(with the flag still set, every re-admission immediately fails again), and
after the budget is exhausted the task ends in ERROR with the temp file
deleted — contradicting the specified terminal STOPPED with the temp file
retained.  `DownloadStatus.STOPPED` is never assigned anywhere. -/
theorem c1_stop_is_retried_then_error :
    ((download_file cfg3 tA fsNone stopOutcome).raised
        = some "Download stopped by user" ∧
      (download_file cfg3 tA fsNone stopOutcome).task.status
        = DownloadStatus.queued ∧
      ¬ (download_file cfg3 tA fsNone stopOutcome).task.status
        = DownloadStatus.stopped ∧
      (download_file cfg3 tA fsNone stopOutcome).task.retry_count = 1) ∧
    ((iterAttempts cfg3 (List.replicate 4 stopOutcome) ⟨tA, fsNone⟩).task.status
        = DownloadStatus.error ∧
      ¬ (iterAttempts cfg3 (List.replicate 4 stopOutcome) ⟨tA, fsNone⟩).task.status
        = DownloadStatus.stopped ∧
      (iterAttempts cfg3 (List.replicate 4 stopOutcome) ⟨tA, fsNone⟩).fs.temp
        = none) := by
  decide

/-- Claim C3 counterexample: in a reachable manager state (retry budget 1, one
task that failed once), the task's `retry_count` already equals
`max_retries` while its status is DOWNLOADING (it was re-queued and
re-admitted), not the claimed terminal ERROR. -/
theorem c3_counterexample :
    Reachable cfg1 c3state ∧
    c3state.tasks.headI.task.retry_count = cfg1.max_retries ∧
    ¬ c3state.tasks.headI.task.status = DownloadStatus.error ∧
    c3state.tasks.headI.task.status = DownloadStatus.downloading := by
  refine ⟨?_, by decide, by decide, by decide⟩
  have h1 : Reachable cfg1
      (add_download cfg1 ⟨[], 0⟩
        (newTask "http://example/f.bin" "/d" "f.bin") fsNone).1 :=
    Reachable.step Reachable.init
      (Step.submit ⟨[], 0⟩ "http://example/f.bin" "/d" "f.bin" fsNone)
  have he : (add_download cfg1 ⟨[], 0⟩
      (newTask "http://example/f.bin" "/d" "f.bin") fsNone).1
      = ⟨[] ++ eAdmitted :: [], 1⟩ := by decide
  rw [he] at h1
  have h2 := Reachable.step h1
    (Step.workerFinish [] [] eAdmitted 1 (.connectError "boom") rfl)
  have hc : start_next_download cfg1
      ⟨[] ++ finishEntry cfg1 eAdmitted (.connectError "boom") :: [], 1 - 1⟩
      = c3state := by decide
  rw [hc] at h2
  exact h2

/-- Claim C9 counterexample: a task that failed once ("boom") and then
completed via a successful retry keeps `error_message = "boom"` while
COMPLETED — the success path (lines 190–200) never clears it. -/
theorem c9_counterexample :
    (iterAttempts cfg3 [.connectError "boom", successOutcome]
        ⟨tA, fsNone⟩).task.status = DownloadStatus.completed ∧
    (iterAttempts cfg3 [.connectError "boom", successOutcome]
        ⟨tA, fsNone⟩).task.error_message = "boom" ∧
    ¬ (iterAttempts cfg3 [.connectError "boom", successOutcome]
        ⟨tA, fsNone⟩).task.error_message = "" := by
  decide

/-- Claim C6 (confirmed): in every reachable scheduler state the number of
tasks in DOWNLOADING status never exceeds the concurrency ceiling
`max_concurrent_downloads` — admissions increment the active count under the
lock only below the ceiling, and each terminating worker releases its slot
exactly once. -/
theorem c6_concurrency_bound (cfg : ManagerCfg) (m : Manager)
    (h : Reachable cfg m) :
    countDownloading m.tasks ≤ cfg.max_concurrent_downloads := by
  obtain ⟨h1, h2, h3⟩ := reachable_inv cfg m h
  have hcd : countDownloading m.tasks = countWorkers m.tasks := by
    apply countP_congr_mem
    intro e he
    obtain ⟨hiff, _, _, _, _⟩ := h3 e he
    cases hb : e.task.hasWorker
    · have hnd : ¬ e.task.status = DownloadStatus.downloading := by
        intro hc
        have := hiff.mpr hc
        rw [hb] at this
        cases this
      simp [hnd]
    · have := hiff.mp hb
      simp [this]
  rw [hcd, ← h1]
  exact h2

/-- Witness for C6 at a concrete reachable state (one submission). -/
theorem c6_witness :
    countDownloading
      ((add_download cfg3 ⟨[], 0⟩ (newTask "u" "d" "f") fsNone).1).tasks
      ≤ cfg3.max_concurrent_downloads :=
  c6_concurrency_bound cfg3 _
    (Reachable.step Reachable.init (Step.submit ⟨[], 0⟩ "u" "d" "f" fsNone))

/-- Claim C3 (corrected, amended): in every reachable state every task has
`retry_count ≤ max_retries`, and a failed attempt re-queues a task only
while `retry_count < max_retries` — once `retry_count = max_retries`, a
further failing attempt sets terminal ERROR with `retry_count` unchanged.
Contrary to the original claim, when `retry_count` first becomes equal to
`max_retries` the status is QUEUED (the final attempt is still pending),
and that attempt may even COMPLETE. -/
theorem c3_amended (cfg : ManagerCfg) (m : Manager) (hr : Reachable cfg m) :
    (∀ e ∈ m.tasks, e.task.retry_count ≤ cfg.max_retries) ∧
    (∀ (t : DownloadTask) (fs : TaskFS) (h : HttpOutcome),
      ((download_file cfg t fs h).task.status = DownloadStatus.queued →
        t.retry_count < cfg.max_retries) ∧
      (∀ e, (tryPhase cfg t fs h).raised = some e →
        ¬ t.retry_count < cfg.max_retries →
        (download_file cfg t fs h).task.status = DownloadStatus.error ∧
        (download_file cfg t fs h).task.retry_count = t.retry_count)) := by
  constructor
  · intro e he
    exact ((reachable_inv cfg m hr).2.2 e he).2.1
  · intro t fs h
    constructor
    · exact (download_file_fields cfg t fs h).2.2.2.2.2
    · intro e he hnlt
      obtain ⟨_, _, _, _, _, h6⟩ := download_file_raised_some cfg t fs h e he
      obtain ⟨c1, c2, _, _⟩ := h6 hnlt
      exact ⟨c1, c2⟩

/-- Witness for C3 (amended) at concrete inputs: a failing attempt with the
budget exhausted yields ERROR and leaves `retry_count` at `max_retries`. -/
theorem c3_amended_witness :
    (download_file cfg1 { tA with retry_count := 1 } fsNone
      (HttpOutcome.connectError "x")).task.status = DownloadStatus.error ∧
    (download_file cfg1 { tA with retry_count := 1 } fsNone
      (HttpOutcome.connectError "x")).task.retry_count = 1 := by
  obtain ⟨p1, p2⟩ := c3_amended cfg1 ⟨[], 0⟩ Reachable.init
  obtain ⟨q1, q2⟩ := p2 { tA with retry_count := 1 } fsNone
    (HttpOutcome.connectError "x")
  obtain ⟨r1, r2⟩ := q2 "x" rfl (by decide)
  exact ⟨r1, r2⟩

/-- Claim C7 (corrected, amended): a fully successful attempt finalises as
claimed — any pre-existing file at `full_path` is replaced by the renamed
temp file (whose size is `start_byte` plus the bytes streamed; the temp
file is gone), status COMPLETED, progress 100, and, when a completion
callback is registered, it is invoked exactly once with the task.  In every
reachable state every task has at most one completion-callback invocation,
and only COMPLETED tasks have one.  Contrary to the original claim's
"exactly once per task that reaches COMPLETED", a task marked COMPLETED by
the already-exists short-circuit receives no invocation. -/
theorem c7_amended (cfg : ManagerCfg) (m : Manager) (hr : Reachable cfg m) :
    (∀ e ∈ m.tasks, e.task.completionCalls ≤ 1 ∧
      (1 ≤ e.task.completionCalls →
        e.task.status = DownloadStatus.completed)) ∧
    (∀ (t : DownloadTask) (fs : TaskFS) (sc : ℕ) (cl : Option ℕ)
        (evs : List ChunkEvent),
      (tryPhase cfg t fs (HttpOutcome.response sc cl evs none)).raised = none →
      (download_file cfg t fs (HttpOutcome.response sc cl evs none)).task.status
        = DownloadStatus.completed ∧
      (download_file cfg t fs (HttpOutcome.response sc cl evs none)).task.progress
        = 100 ∧
      (download_file cfg t fs (HttpOutcome.response sc cl evs none)).fs.temp
        = none ∧
      (download_file cfg t fs (HttpOutcome.response sc cl evs none)).fs.finalSize
        = some ((tryPhase cfg t fs (HttpOutcome.response sc cl evs none)).start_byte
            + sumSizes evs) ∧
      (cfg.hasCompletionCallback = true →
        (download_file cfg t fs
          (HttpOutcome.response sc cl evs none)).task.completionCalls
          = t.completionCalls + 1)) := by
  constructor
  · intro e he
    obtain ⟨_, _, hc1, hc2, _⟩ := (reachable_inv cfg m hr).2.2 e he
    exact ⟨hc1, hc2⟩
  · intro t fs sc cl evs hn
    obtain ⟨_, _, _, _, p5, _⟩ :=
      tryPhase_fields cfg t fs (HttpOutcome.response sc cl evs none)
    obtain ⟨a1, a2, a3, a4⟩ := p5 hn
    rw [download_file_raised_none cfg t fs (HttpOutcome.response sc cl evs none) hn]
    obtain ⟨g1, _⟩ := tryPhase_ghosts cfg t fs (HttpOutcome.response sc cl evs none)
    refine ⟨a1, a2, a4, ?_, ?_⟩
    · rw [g1]
      exact tryPhase_success_fs cfg t fs sc cl evs hn
    · intro hcb
      rw [a3, if_pos hcb]

/-- Witness for C7 (amended): a concrete successful attempt with the
callback registered. -/
theorem c7_amended_witness :
    (download_file cfg3 tA fsNone successOutcome).task.status
      = DownloadStatus.completed ∧
    (download_file cfg3 tA fsNone successOutcome).fs.temp = none ∧
    (download_file cfg3 tA fsNone successOutcome).task.completionCalls
      = tA.completionCalls + 1 := by
  obtain ⟨_, p2⟩ := c7_amended cfg3 ⟨[], 0⟩ Reachable.init
  obtain ⟨a1, a2, a3, a4, a5⟩ := p2 tA fsNone 200 (some 10) [evPlain] (by decide)
  exact ⟨a1, a3, a5 rfl⟩

/-- Claim C9 (corrected, amended): in every reachable state a task none of
whose attempts has failed has an empty `error_message`; a failed attempt
records the raised message; but a successful attempt leaves `error_message`
unchanged rather than clearing it, so a task that completes after an
earlier failure retains the last failure's message while COMPLETED. -/
theorem c9_amended (cfg : ManagerCfg) (m : Manager) (hr : Reachable cfg m) :
    (∀ e ∈ m.tasks, e.task.everFailed = false → e.task.error_message = "") ∧
    (∀ (t : DownloadTask) (fs : TaskFS) (h : HttpOutcome),
      ((tryPhase cfg t fs h).raised = none →
        (download_file cfg t fs h).task.error_message = t.error_message) ∧
      (∀ e, (tryPhase cfg t fs h).raised = some e →
        (download_file cfg t fs h).task.error_message = e)) := by
  constructor
  · intro e he
    exact ((reachable_inv cfg m hr).2.2 e he).2.2.2.2
  · intro t fs h
    constructor
    · intro hn
      rw [download_file_raised_none cfg t fs h hn]
      exact (tryPhase_fields cfg t fs h).2.2.2.1
    · intro e he
      exact (download_file_raised_some cfg t fs h e he).1

/-- Witness for C9 (amended) at concrete inputs: a successful attempt keeps
the old message, a failing attempt records the new one. -/
theorem c9_amended_witness :
    (download_file cfg3 tA fsNone successOutcome).task.error_message
      = tA.error_message ∧
    (download_file cfg3 tA fsNone
      (HttpOutcome.connectError "boom")).task.error_message = "boom" := by
  obtain ⟨_, p2⟩ := c9_amended cfg3 ⟨[], 0⟩ Reachable.init
  exact ⟨(p2 tA fsNone successOutcome).1 (by decide),
    (p2 tA fsNone (HttpOutcome.connectError "boom")).2 "boom" rfl⟩

/-- Claim C7 counterexample: with a completion callback registered, a task
submitted while its destination file already exists reaches COMPLETED in a
reachable manager state with zero completion-callback invocations — so the
callback is not invoked "exactly once per task that reaches COMPLETED". -/
theorem c7_counterexample :
    Reachable cfg3 c7state ∧
    cfg3.hasCompletionCallback = true ∧
    c7state.tasks.headI.task.status = DownloadStatus.completed ∧
    c7state.tasks.headI.task.completionCalls = 0 := by
  refine ⟨?_, rfl, by decide, by decide⟩
  have h1 : Reachable cfg3
      (add_download cfg3 ⟨[], 0⟩
        (newTask "http://example/f.bin" "/d" "f.bin") fsFinal).1 :=
    Reachable.step Reachable.init
      (Step.submit ⟨[], 0⟩ "http://example/f.bin" "/d" "f.bin" fsFinal)
  exact h1

end AsusDL
